import Mathlib

/-!
Verification of the turbo-export-engine core: a shallow embedding in Lean 4
of the CSV encoder (`internal/csv/writer.go`), the minimal OOXML spreadsheet
builder (`internal/xlsx`), the split+zip partitioner (`internal/splitzip`)
and the worker pool (`internal/worker/pool.go`), together with theorems
settling the specification's claims about them.

Modelling conventions:
* Go slices of rows become `List Row`; `rows[i:j]` becomes `(rows.drop i).take (j-i)`.
* Byte output becomes `String` (all output of the engine is text or XML text);
  writes to a buffered sink in sequence become string concatenation.
* Go `int` configuration values become `Int` (they can be non-positive before
  the defaulting step), and are converted with `Int.toNat` after defaulting.
* Fallible Go functions returning `error` become `Except String`/`Option`.
* Concurrently executing chunk tasks are pure functions of their chunk, so the
  only observable nondeterminism is the order in which task outcomes arrive on
  the result/error channels; that arrival order is made explicit as a
  permutation parameter where a claim is about it.
-/

namespace TurboExport

/-- A scalar cell value: one of text, number, boolean, absent/null
(`pkg/types.Row` is an ordered sequence of such scalars; numeric cells are
modelled by their integer value, whose Go `%v` rendering is its decimal text). -/
inductive Cell where
  | text (s : String)
  | num (n : Int)
  | boolean (b : Bool)
  | null
deriving DecidableEq, Repr

/-- A row is an ordered sequence of scalar cell values. -/
abbrev Row := List Cell

/-- The canonical cell text: Go `fmt.Sprintf("%v", cell)` over the supported
scalars.  A nil interface value renders as the literal `<nil>`. -/
def cellText : Cell → String
  | .text s => s
  | .num n => toString n
  | .boolean b => if b then "true" else "false"
  | .null => "<nil>"

/-- Sequential writes of a list of strings to one sink, concatenated in order. -/
def sjoin : List String → String
  | [] => ""
  | s :: rest => s ++ sjoin rest

theorem sjoin_append (l1 l2 : List String) : sjoin (l1 ++ l2) = sjoin l1 ++ sjoin l2 := by
  induction l1 with
  | nil => simp [sjoin]
  | cons s rest ih => simp [sjoin, ih, String.append_assoc]

/-- The Unicode `White_Space` code points, which Go's `unicode.IsSpace` tests. -/
def whiteSpaceCodes : List Nat :=
  [0x09, 0x0A, 0x0B, 0x0C, 0x0D, 0x20, 0x85, 0xA0, 0x1680,
   0x2000, 0x2001, 0x2002, 0x2003, 0x2004, 0x2005, 0x2006, 0x2007,
   0x2008, 0x2009, 0x200A, 0x2028, 0x2029, 0x202F, 0x205F, 0x3000]

/-- Go `unicode.IsSpace`. -/
def goIsSpace (c : Char) : Bool := whiteSpaceCodes.contains c.toNat

/-- Go `encoding/csv` `Writer.fieldNeedsQuotes` with the default comma
delimiter: an empty field is unquoted; a field that is exactly `\.`, contains
a comma, a double quote, CR or LF, or begins with a Unicode space, is quoted. -/
def fieldNeedsQuotes (field : String) : Bool :=
  if field = "" then false
  else if field = "\\." then true
  else if field.data.any (fun c => c = ',' || c = '"' || c = '\r' || c = '\n') then true
  else match field.data with
    | [] => false
    | c :: _ => goIsSpace c

/-- Go `encoding/csv` field encoding (UseCRLF = false): a field needing quotes
is wrapped in double quotes with embedded double quotes doubled. -/
def encodeField (field : String) : String :=
  if fieldNeedsQuotes field then
    "\"" ++ sjoin (field.data.map fun c => if c = '"' then "\"\"" else String.singleton c) ++ "\""
  else field

/-- Go `encoding/csv` `Writer.Write` of one record: fields joined by commas,
terminated by a bare LF (UseCRLF = false). -/
def encodeRecord (record : List String) : String :=
  String.intercalate "," (record.map encodeField) ++ "\n"

/-- `Writer.WriteSync` (writer.go): header record if headers are non-empty,
then one record per row using the canonical cell text. -/
def writeSync (headers : List String) (rows : List Row) : String :=
  (if headers.length > 0 then encodeRecord headers else "")
  ++ sjoin (rows.map fun row => encodeRecord (row.map cellText))

/-- `splitIntoChunks` (writer.go and the xlsx builder have identical copies):
`for i := 0; i < len(rows); i += chunkSize { chunks = append(chunks, rows[i:min(i+chunkSize, len)]) }`.
The loop is rendered with explicit fuel `rows.length`, which suffices for any
positive `chunkSize` — every caller defaults `chunkSize` to a positive value
first (Go would not terminate on `chunkSize = 0`, which is unreachable). -/
def splitIntoChunksAux (fuel : Nat) (rows : List Row) (chunkSize : Nat) : List (List Row) :=
  match fuel with
  | 0 => []
  | fuel + 1 =>
    if rows = [] then []
    else rows.take chunkSize :: splitIntoChunksAux fuel (rows.drop chunkSize) chunkSize

/-- `splitIntoChunks rows chunkSize`: the contiguous chunks of `rows`, in order. -/
def splitIntoChunks (rows : List Row) (chunkSize : Nat) : List (List Row) :=
  splitIntoChunksAux rows.length rows chunkSize

/-- The chunk list joins back to the original rows (for positive chunk size). -/
theorem splitIntoChunksAux_join (c : Nat) (hc : 0 < c) :
    ∀ (fuel : Nat) (rows : List Row), rows.length ≤ fuel →
      (splitIntoChunksAux fuel rows c).flatten = rows := by
  intro fuel
  induction fuel with
  | zero =>
    intro rows h
    have : rows = [] := List.eq_nil_of_length_eq_zero (Nat.le_zero.mp h)
    simp [splitIntoChunksAux, this]
  | succ n ih =>
    intro rows h
    by_cases hr : rows = []
    · simp [splitIntoChunksAux, hr]
    · have hlen : (rows.drop c).length ≤ n := by
        have h1 : 0 < rows.length := List.length_pos.mpr hr
        simp only [List.length_drop]
        omega
      simp [splitIntoChunksAux, hr, ih _ hlen]

theorem splitIntoChunks_join (rows : List Row) (c : Nat) (hc : 0 < c) :
    (splitIntoChunks rows c).flatten = rows :=
  splitIntoChunksAux_join c hc rows.length rows (Nat.le_refl _)

/-- `processChunk` (writer.go): converts a chunk's rows to string records,
tagged with the chunk index; it never returns an error. -/
structure ProcessedChunk where
  Index : Nat
  Records : List (List String)
deriving Repr

def processChunk (index : Nat) (rows : List Row) : ProcessedChunk × Option String :=
  (⟨index, rows.map fun row => row.map cellText⟩, none)

/-- Effective chunk size: every component replaces a non-positive `chunkSize`
by the default 10000 (writer.go line 63, the xlsx builder, the splitter alike). -/
def effChunkSize (chunkSize : Int) : Nat :=
  (if chunkSize ≤ 0 then (10000 : Int) else chunkSize).toNat

/-- Effective worker count: a non-positive `workers` is replaced by the
default 4 in all parallel paths. -/
def effWorkers (workers : Int) : Nat :=
  (if workers ≤ 0 then (4 : Int) else workers).toNat

theorem effChunkSize_pos (c : Int) : 0 < effChunkSize c := by
  unfold effChunkSize
  by_cases h : c ≤ 0
  · simp [h]
  · simp only [h, if_false]
    omega

/-- The per-task error observations of `WriteParallel`'s error channel: task
`i` renders chunk `i`; a failing task sends its error, a succeeding one sends
nothing.  `arrival` is the order in which task outcomes are observed. -/
def errAt (render : Nat → List Row → Except String (List (List String)))
    (chunks : List (List Row)) (i : Nat) : Option String :=
  match chunks.get? i with
  | some ch =>
    match render i ch with
    | .error e => some e
    | .ok _ => none
  | none => none

/-- The results array of `WriteParallel`, addressed by chunk index (slot `i`
holds task `i`'s records; an errored task leaves its slot at the zero value). -/
def dispatchResults (render : Nat → List Row → Except String (List (List String)))
    (idx : Nat) : List (List Row) → List (Except String (List (List String)))
  | [] => []
  | chunk :: rest => render idx chunk :: dispatchResults render (idx + 1) rest

/-- The bytes one results-array slot contributes during reassembly: the
slot's records encoded in order; an errored task's slot holds the zero value
and contributes nothing. -/
def chunkOut : Except String (List (List String)) → String
  | .ok recs => sjoin (recs.map encodeRecord)
  | .error _ => ""

/-- `Writer.WriteParallel` (writer.go), with the per-chunk render function as
a parameter (the real code passes `processChunk`) and the channel arrival
order explicit.  Returns the bytes written to the output sink and the error
returned, if any: headers are written up front; chunks are dispatched; results
land in an index-addressed array; if the error channel holds anything, the
first observed error is returned and reassembly is skipped; otherwise the
chunks' records are written in index order. -/
def writeParallelWith (render : Nat → List Row → Except String (List (List String)))
    (headers : List String) (rows : List Row) (chunkSize workers : Int)
    (arrival : List Nat) : String × Option String :=
  let csize := effChunkSize chunkSize
  let _w := effWorkers workers
  let headerOut := if headers.length > 0 then encodeRecord headers else ""
  let chunks := splitIntoChunks rows csize
  let errs := arrival.filterMap (errAt render chunks)
  let outs := dispatchResults render 0 chunks
  match errs.head? with
  | some e => (headerOut, some e)
  | none => (headerOut ++ sjoin (outs.map chunkOut), none)

/-- `Writer.WriteParallel` proper: the render function is `processChunk`,
which always succeeds. -/
def writeParallel (headers : List String) (rows : List Row)
    (chunkSize workers : Int) (arrival : List Nat) : String × Option String :=
  writeParallelWith (fun i c => Except.ok (processChunk i c).1.Records)
    headers rows chunkSize workers arrival

/-- With a total render function the error channel stays empty. -/
theorem errAt_ok (g : List Row → List (List String)) (chunks : List (List Row)) (i : Nat) :
    errAt (fun _ c => Except.ok (g c)) chunks i = none := by
  unfold errAt
  cases chunks.get? i <;> simp

/-- With a render function that ignores its index and always succeeds, the
results array is the chunk list mapped through the render. -/
theorem dispatchResults_ok (g : List Row → List (List String)) :
    ∀ (idx : Nat) (chunks : List (List Row)),
      dispatchResults (fun _ c => Except.ok (g c)) idx chunks
        = chunks.map fun c => Except.ok (g c) := by
  intro idx chunks
  induction chunks generalizing idx with
  | nil => rfl
  | cons ch rest ih => simp [dispatchResults, ih]

/-- Writing per-chunk concatenations chunk by chunk writes the same bytes as
one pass over the flattened rows. -/
theorem sjoin_chunked (f : Row → String) (chunks : List (List Row)) :
    sjoin (chunks.map fun ch => sjoin (ch.map f)) = sjoin (chunks.flatten.map f) := by
  induction chunks with
  | nil => rfl
  | cons ch rest ih =>
    simp only [List.map_cons, sjoin, List.flatten_cons, List.map_append, sjoin_append, ih]

/-- Shared helper: `WriteParallel` writes exactly `WriteSync`'s bytes and
returns no error, for every chunk size, worker count and completion order. -/
theorem writeParallel_eq_writeSync (headers : List String) (rows : List Row)
    (chunkSize workers : Int) (arrival : List Nat) :
    writeParallel headers rows chunkSize workers arrival = (writeSync headers rows, none) := by
  unfold writeParallel writeParallelWith
  have herrs : arrival.filterMap
      (errAt (fun i c => Except.ok (processChunk i c).1.Records)
        (splitIntoChunks rows (effChunkSize chunkSize))) = [] := by
    rw [List.filterMap_eq_nil_iff]
    intro a _
    exact errAt_ok (fun c => c.map fun row => row.map cellText) _ a
  simp only [processChunk] at herrs ⊢
  rw [herrs]
  simp only [List.head?_nil]
  rw [dispatchResults_ok (fun c => c.map fun row => row.map cellText)]
  rw [List.map_map]
  have hmap : (chunkOut ∘ fun c : List Row => Except.ok (c.map fun row => row.map cellText))
      = fun ch : List Row => sjoin (ch.map fun row => encodeRecord (row.map cellText)) := by
    funext c
    simp [chunkOut, List.map_map, Function.comp_def]
  rw [hmap, sjoin_chunked (fun row => encodeRecord (row.map cellText)),
    splitIntoChunks_join rows _ (effChunkSize_pos chunkSize)]
  rfl

/-- C1.  For every headers list, rows list, chunk size and worker count, and
for every order `arrival` in which chunk tasks complete, the CSV bytes written
by `WriteParallel` are exactly the bytes written by `WriteSync`, and no error
is returned: the output depends only on the input data, never on the execution
strategy or on chunk completion order. -/
theorem csv_sync_parallel_agree (headers : List String) (rows : List Row)
    (chunkSize workers : Int) (arrival : List Nat) :
    writeParallel headers rows chunkSize workers arrival = (writeSync headers rows, none) :=
  writeParallel_eq_writeSync headers rows chunkSize workers arrival

/-- `columnName`'s loop (the xlsx builder and the splitzip xlsx part writer
have identical copies): starting from the 1-based column number, repeatedly
decrement, prepend the letter `'A' + col % 26`, and divide by 26.  The loop is
rendered with explicit fuel; `fuel = col` suffices since the quotient
`(col - 1) / 26` is strictly smaller than `col`. -/
def columnNameAux (fuel : Nat) (col : Nat) : String :=
  match fuel with
  | 0 => ""
  | fuel + 1 =>
    if col = 0 then ""
    else columnNameAux fuel ((col - 1) / 26)
      ++ String.singleton (Char.ofNat ('A'.toNat + (col - 1) % 26))

/-- `columnName col`: the Excel letter name of 0-based column `col`
(bijective base-26: A, B, ..., Z, AA, AB, ...). -/
def columnName (col : Nat) : String := columnNameAux (col + 1) (col + 1)

/-- The value of a letter string read back as bijective base-26
(`A = 1, ..., Z = 26`, each position weighted by 26): the inverse reading
used to show `columnName` is injective. -/
def colVal (s : List Char) : Nat :=
  s.foldl (fun v c => v * 26 + (c.toNat - 'A'.toNat + 1)) 0

theorem colVal_append_singleton (l : List Char) (c : Char) :
    colVal (l ++ [c]) = colVal l * 26 + (c.toNat - 'A'.toNat + 1) := by
  unfold colVal
  rw [List.foldl_append]
  rfl

theorem char_ofNat_digit_toNat (d : Nat) (hd : d < 26) :
    (Char.ofNat ('A'.toNat + d)).toNat = 'A'.toNat + d := by
  interval_cases d <;> decide

theorem colVal_columnNameAux (fuel : Nat) :
    ∀ col : Nat, col ≤ fuel → colVal (columnNameAux fuel col).data = col := by
  induction fuel with
  | zero =>
    intro col h
    have : col = 0 := Nat.le_zero.mp h
    simp [columnNameAux, this, colVal]
  | succ n ih =>
    intro col h
    by_cases h0 : col = 0
    · simp [columnNameAux, h0, colVal]
    · have hq : (col - 1) / 26 ≤ n := by
        have h1 : (col - 1) / 26 ≤ col - 1 := Nat.div_le_self _ _
        omega
      have hrec := ih _ hq
      simp only [columnNameAux, h0, if_false, String.data_append]
      have hsing : (String.singleton (Char.ofNat ('A'.toNat + (col - 1) % 26))).data
          = [Char.ofNat ('A'.toNat + (col - 1) % 26)] := rfl
      rw [hsing, colVal_append_singleton, hrec,
        char_ofNat_digit_toNat _ (Nat.mod_lt _ (by omega))]
      have := Nat.div_add_mod (col - 1) 26
      omega

/-- `columnName` decodes back to the 1-based column number. -/
theorem colVal_columnName (col : Nat) : colVal (columnName col).data = col + 1 :=
  colVal_columnNameAux (col + 1) (col + 1) (Nat.le_refl _)

/-- Go `html.EscapeString` escapes exactly five characters; every other
character is emitted unchanged. -/
def escapeChar (c : Char) : String :=
  if c = '&' then "&amp;"
  else if c = Char.ofNat 39 then "&#39;"
  else if c = '<' then "&lt;"
  else if c = '>' then "&gt;"
  else if c = '"' then "&#34;"
  else String.singleton c

/-- Go `html.EscapeString`: one pass over the text replacing each of the five
special characters. -/
def escapeString (s : String) : String := sjoin (s.data.map escapeChar)

/-- One cell element of `buildRowXML`: reference = column letters + row
number, inline string, text escaped with `html.EscapeString`. -/
def cellXML (rowNum : Nat) (colIdx : Nat) (cellValue : String) : String :=
  "<c r=\"" ++ columnName colIdx ++ toString rowNum
    ++ "\" t=\"inlineStr\"><is><t>" ++ escapeString cellValue ++ "</t></is></c>"

/-- The cell loop of `buildRowXML`, with the running column index explicit. -/
def buildCellsXML (rowNum : Nat) (colIdx : Nat) : List String → String
  | [] => ""
  | c :: rest => cellXML rowNum colIdx c ++ buildCellsXML rowNum (colIdx + 1) rest

/-- `buildRowXML` (identical in the xlsx builder and the splitzip xlsx part
writer): one `<row>` element, cells addressed `A..`, `B..`, ... -/
def buildRowXML (rowNum : Nat) (cells : List String) : String :=
  "    <row r=\"" ++ toString rowNum ++ "\">" ++ buildCellsXML rowNum 0 cells ++ "</row>\n"

/-- The fixed worksheet part header written by `writeSheet`. -/
def sheetHeaderXML : String :=
  "<?xml version=\"1.0\" encoding=\"UTF-8\" standalone=\"yes\"?>\n<worksheet xmlns=\"http://schemas.openxmlformats.org/spreadsheetml/2006/main\">\n  <sheetData>\n"

/-- The fixed worksheet part footer written by `writeSheet`. -/
def sheetFooterXML : String := "  </sheetData>\n</worksheet>"

/-- The sync data-row loop of `Builder.writeSheet`: one `<row>` per data row,
row number incremented by exactly 1 per row. -/
def writeRowsXML (rowNum : Nat) : List Row → String
  | [] => ""
  | row :: rest => buildRowXML rowNum (row.map cellText) ++ writeRowsXML (rowNum + 1) rest

/-- The row loop of `Builder.processChunkXML`: row `i` of the chunk is
numbered `startRowNum + i`. -/
def processChunkRows (startRowNum : Nat) (i : Nat) : List Row → String
  | [] => ""
  | row :: rest => buildRowXML (startRowNum + i) (row.map cellText)
      ++ processChunkRows startRowNum (i + 1) rest

/-- `Builder.processChunkXML`: renders one chunk's rows, tagged with the chunk
index; never returns an error. -/
def processChunkXML (index : Nat) (rows : List Row) (startRowNum : Nat) : Nat × String :=
  (index, processChunkRows startRowNum 0 rows)

/-- The chunk dispatch loop of `Builder.writeSheet` in parallel mode: chunk
`idx` is dispatched with precomputed starting row number
`rowNum + idx * chunkSize`, and the results are reassembled in chunk-index
order (the results array is addressed by index, so completion order cannot
reorder them — see `writeParallelWith` for the explicit treatment). -/
def dispatchChunksXML (chunkSize : Nat) (rowNum : Nat) (idx : Nat) :
    List (List Row) → List String
  | [] => []
  | chunk :: rest => (processChunkXML idx chunk (rowNum + idx * chunkSize)).2
      :: dispatchChunksXML chunkSize rowNum (idx + 1) rest

/-- `Builder.writeSheet` in sync mode: header row (if any) at row 1, then the
data rows numbered consecutively from `rowNum`. -/
def writeSheetSync (headers : List String) (rows : List Row) : String :=
  let headerPart := if headers.length > 0 then buildRowXML 1 headers else ""
  let rowNum := if headers.length > 0 then 2 else 1
  sheetHeaderXML ++ headerPart ++ writeRowsXML rowNum rows ++ sheetFooterXML

/-- `Builder.writeSheet` in parallel mode: header row written up front, rows
chunked, each chunk rendered with its precomputed starting row number, chunk
renderings written in index order. -/
def writeSheetParallel (headers : List String) (rows : List Row)
    (chunkSize workers : Int) : String :=
  let headerPart := if headers.length > 0 then buildRowXML 1 headers else ""
  let rowNum := if headers.length > 0 then 2 else 1
  let csize := effChunkSize chunkSize
  let _w := effWorkers workers
  let chunks := splitIntoChunks rows csize
  sheetHeaderXML ++ headerPart ++ sjoin (dispatchChunksXML csize rowNum 0 chunks) ++ sheetFooterXML

/-- The chunk row loop numbers its rows like the sync loop started at
`startRowNum + i`. -/
theorem processChunkRows_eq (rows : List Row) :
    ∀ (s i : Nat), processChunkRows s i rows = writeRowsXML (s + i) rows := by
  induction rows with
  | nil => intro s i; rfl
  | cons row rest ih =>
    intro s i
    simp only [processChunkRows, writeRowsXML, ih s (i + 1)]
    have : s + (i + 1) = s + i + 1 := by omega
    rw [this]

theorem writeRowsXML_append (l1 l2 : List Row) :
    ∀ s : Nat, writeRowsXML s (l1 ++ l2)
      = writeRowsXML s l1 ++ writeRowsXML (s + l1.length) l2 := by
  induction l1 with
  | nil => intro s; simp [writeRowsXML]
  | cons row rest ih =>
    intro s
    have h : s + (row :: rest).length = s + 1 + rest.length := by
      simp only [List.length_cons]
      omega
    rw [h, List.cons_append, writeRowsXML, writeRowsXML, ih (s + 1), String.append_assoc]

/-- Reassembling the chunk renderings, each chunk started at its precomputed
row number `rowNum + idx * chunkSize`, writes exactly the rows numbered
consecutively from `rowNum + idx * chunkSize` on. -/
theorem dispatchChunksXML_eq (c : Nat) (hc : 0 < c) :
    ∀ (fuel : Nat) (rows : List Row) (s idx : Nat), rows.length ≤ fuel →
      sjoin (dispatchChunksXML c s idx (splitIntoChunksAux fuel rows c))
        = writeRowsXML (s + idx * c) rows := by
  intro fuel
  induction fuel with
  | zero =>
    intro rows s idx h
    have : rows = [] := List.eq_nil_of_length_eq_zero (Nat.le_zero.mp h)
    simp [this, splitIntoChunksAux, dispatchChunksXML, sjoin, writeRowsXML]
  | succ n ih =>
    intro rows s idx h
    by_cases hr : rows = []
    · simp [hr, splitIntoChunksAux, dispatchChunksXML, sjoin, writeRowsXML]
    · have hlen : (rows.drop c).length ≤ n := by
        have h1 : 0 < rows.length := List.length_pos.mpr hr
        simp only [List.length_drop]
        omega
      simp only [splitIntoChunksAux, hr, if_false, dispatchChunksXML, sjoin,
        processChunkXML, processChunkRows_eq, Nat.add_zero, ih _ _ _ hlen]
      conv_rhs => rw [← List.take_append_drop c rows]
      rw [writeRowsXML_append]
      by_cases hsmall : rows.length ≤ c
      · have hdrop : rows.drop c = [] := List.drop_eq_nil_iff.mpr hsmall
        rw [hdrop]
        simp [writeRowsXML]
      · have htake : (rows.take c).length = c := by
          rw [List.length_take]
          omega
        rw [htake]
        have : s + idx * c + c = s + (idx + 1) * c := by ring
        rw [this]

/-- The sync row loop assigns row `i` (0-based) the worksheet row number
`s + i`. -/
theorem writeRowsXML_eq_range (rows : List Row) :
    ∀ s : Nat, writeRowsXML s rows
      = sjoin ((List.range rows.length).map fun i =>
          buildRowXML (s + i) ((rows.getD i []).map cellText)) := by
  induction rows with
  | nil => intro s; simp [writeRowsXML, sjoin]
  | cons row rest ih =>
    intro s
    simp only [writeRowsXML, List.length_cons, List.range_succ_eq_map,
      List.map_cons, List.map_map, sjoin, Nat.add_zero, List.getD_cons_zero]
    rw [ih (s + 1)]
    congr 1
    congr 1
    apply List.map_congr_left
    intro i _
    simp only [Function.comp_apply, List.getD_cons_succ]
    congr 1
    omega

/-- C2.  In the spreadsheet builder, the header (when headers are non-empty)
occupies worksheet row 1 and data row `i` (0-based) is numbered
`firstDataRow + i` with `firstDataRow = 2`; without headers
`firstDataRow = 1` — so row numbers increase by exactly 1 per row, gaplessly.
In parallel mode the same holds across every chunk boundary, and the sheet
bytes equal the sync ones, because each chunk's starting row number
`rowNum + idx * chunkSize` is precomputed before dispatch. -/
theorem sheet_row_numbering (headers : List String) (rows : List Row)
    (chunkSize workers : Int) :
    writeSheetSync headers rows
      = sheetHeaderXML ++ (if headers.length > 0 then buildRowXML 1 headers else "")
        ++ sjoin ((List.range rows.length).map fun i =>
            buildRowXML ((if headers.length > 0 then 2 else 1) + i)
              ((rows.getD i []).map cellText))
        ++ sheetFooterXML
    ∧ writeSheetParallel headers rows chunkSize workers = writeSheetSync headers rows := by
  constructor
  · unfold writeSheetSync
    simp only [writeRowsXML_eq_range]
  · unfold writeSheetParallel writeSheetSync splitIntoChunks
    have hd := dispatchChunksXML_eq (effChunkSize chunkSize) (effChunkSize_pos chunkSize)
      rows.length rows (if headers.length > 0 then 2 else 1) 0 (Nat.le_refl _)
    simp only [Nat.zero_mul, Nat.add_zero] at hd
    simp only [hd]

/-- C4.  The column-name function is the bijective base-26 numbering:
`0 ↦ "A"`, `25 ↦ "Z"`, `26 ↦ "AA"`, `701 ↦ "ZZ"`, `702 ↦ "AAA"`, and the
mapping is injective (each digit is `(c' - 1) % 26`, then `c'` becomes
`(c' - 1) / 26` — exactly the loop body of `columnName`). -/
theorem columnName_bijective_base26 :
    columnName 0 = "A" ∧ columnName 25 = "Z" ∧ columnName 26 = "AA"
    ∧ columnName 701 = "ZZ" ∧ columnName 702 = "AAA"
    ∧ (∀ c : Nat, colVal (columnName c).data = c + 1)
    ∧ Function.Injective columnName := by
  refine ⟨by decide, by decide, by decide, by decide, by decide, colVal_columnName, ?_⟩
  intro a b h
  have ha := colVal_columnName a
  have hb := colVal_columnName b
  rw [h] at ha
  omega

/-- C5 counterexample.  The claim says cell text is escaped for exactly the
three characters `&`, `<`, `>` with all other characters unchanged; but the
code (Go `html.EscapeString`) also escapes the double quote to `&#34;`
(and the apostrophe to `&#39;`), so a cell containing `"` is not emitted
unchanged. -/
theorem escape_three_chars_false :
    escapeString "\"" = "&#34;" ∧ escapeString "\"" ≠ "\""
    ∧ buildRowXML 1 ["\""]
        ≠ "    <row r=\"1\"><c r=\"A1\" t=\"inlineStr\"><is><t>\"</t></is></c></row>\n"
    ∧ buildRowXML 1 ["\""]
        = "    <row r=\"1\"><c r=\"A1\" t=\"inlineStr\"><is><t>&#34;</t></is></c></row>\n" := by
  refine ⟨by decide, by decide, by decide, by decide⟩

/-- C5 as amended.  Every cell's text is emitted as an inline string escaped
for exactly the five characters `&` (to `&amp;`), `'` (to `&#39;`), `<` (to
`&lt;`), `>` (to `&gt;`) and `"` (to `&#34;`); every other character is left
unchanged; in particular the cell text `<script>&co` renders as
`&lt;script&gt;&amp;co`. -/
theorem escape_five_characters (c : Char)
    (h1 : c ≠ '&') (h2 : c ≠ Char.ofNat 39) (h3 : c ≠ '<') (h4 : c ≠ '>') (h5 : c ≠ '"') :
    escapeChar c = String.singleton c
    ∧ escapeChar '&' = "&amp;" ∧ escapeChar (Char.ofNat 39) = "&#39;"
    ∧ escapeChar '<' = "&lt;" ∧ escapeChar '>' = "&gt;" ∧ escapeChar '"' = "&#34;"
    ∧ escapeString "<script>&co" = "&lt;script&gt;&amp;co"
    ∧ buildRowXML 1 ["<script>&co"]
        = "    <row r=\"1\"><c r=\"A1\" t=\"inlineStr\"><is><t>&lt;script&gt;&amp;co</t></is></c></row>\n" := by
  refine ⟨?_, by decide, by decide, by decide, by decide, by decide, by decide, by decide⟩
  simp [escapeChar, h1, h2, h3, h4, h5]

/-- Witness for `escape_five_characters` at the concrete character `x`. -/
theorem escape_five_characters_witness :
    escapeChar 'x' = String.singleton 'x'
    ∧ escapeChar '&' = "&amp;" ∧ escapeChar (Char.ofNat 39) = "&#39;"
    ∧ escapeChar '<' = "&lt;" ∧ escapeChar '>' = "&gt;" ∧ escapeChar '"' = "&#34;"
    ∧ escapeString "<script>&co" = "&lt;script&gt;&amp;co"
    ∧ buildRowXML 1 ["<script>&co"]
        = "    <row r=\"1\"><c r=\"A1\" t=\"inlineStr\"><is><t>&lt;script&gt;&amp;co</t></is></c></row>\n" :=
  escape_five_characters 'x' (by decide) (by decide) (by decide) (by decide) (by decide)

/-- C6.  In the chunked parallel algorithm, if any chunk task fails then the
call returns the first error observed on the error channel (whatever the
arrival order of task outcomes) and reassembly is not performed: the output
sink holds only the up-front header record, no chunk's rendered records.
The per-chunk render function is a parameter here because the repository's
own `processChunk` is total — the error path is exercised by instantiating
`render` with a failing function. -/
theorem chunk_error_policy (render : Nat → List Row → Except String (List (List String)))
    (headers : List String) (rows : List Row) (chunkSize workers : Int)
    (arrival : List Nat)
    (hperm : arrival.Perm (List.range (splitIntoChunks rows (effChunkSize chunkSize)).length))
    (hfail : ∃ i ch e, (splitIntoChunks rows (effChunkSize chunkSize)).get? i = some ch
        ∧ render i ch = Except.error e) :
    ∃ e, (arrival.filterMap (errAt render (splitIntoChunks rows (effChunkSize chunkSize)))).head?
          = some e
      ∧ writeParallelWith render headers rows chunkSize workers arrival
          = ((if headers.length > 0 then encodeRecord headers else ""), some e) := by
  obtain ⟨i, ch, e0, hget, herr⟩ := hfail
  have hlt : i < (splitIntoChunks rows (effChunkSize chunkSize)).length := by
    obtain ⟨hlt, -⟩ := List.get?_eq_some.mp hget
    exact hlt
  have hi : i ∈ arrival := by
    rw [hperm.mem_iff]
    exact List.mem_range.mpr hlt
  have hsome : errAt render (splitIntoChunks rows (effChunkSize chunkSize)) i = some e0 := by
    simp only [errAt, hget, herr]
  have hmem : e0 ∈ arrival.filterMap (errAt render (splitIntoChunks rows (effChunkSize chunkSize))) :=
    List.mem_filterMap.mpr ⟨i, hi, hsome⟩
  cases hcase : arrival.filterMap (errAt render (splitIntoChunks rows (effChunkSize chunkSize))) with
  | nil =>
    rw [hcase] at hmem
    exact absurd hmem (List.not_mem_nil _)
  | cons e t =>
    refine ⟨e, by simp, ?_⟩
    unfold writeParallelWith
    simp only [hcase, List.head?_cons]

/-- C7 counterexample.  With zero rows the chunker produces zero chunks, not
the minimum of one the claim states: the `for` loop body never runs on an
empty slice. -/
theorem splitIntoChunks_empty_counterexample :
    splitIntoChunks ([] : List Row) 5 = [] ∧ (splitIntoChunks ([] : List Row) 5).length ≠ 1 :=
  ⟨rfl, by decide⟩

theorem splitIntoChunksAux_length (c : Nat) (hc : 0 < c) :
    ∀ (fuel : Nat) (rows : List Row), rows.length ≤ fuel →
      (splitIntoChunksAux fuel rows c).length = (rows.length + c - 1) / c := by
  intro fuel
  induction fuel with
  | zero =>
    intro rows h
    have h0 : rows = [] := List.eq_nil_of_length_eq_zero (Nat.le_zero.mp h)
    subst h0
    simp [splitIntoChunksAux, Nat.div_eq_of_lt (show c - 1 < c by omega)]
  | succ n ih =>
    intro rows h
    by_cases hr : rows = []
    · subst hr
      simp [splitIntoChunksAux, Nat.div_eq_of_lt (show c - 1 < c by omega)]
    · have hpos : 0 < rows.length := List.length_pos.mpr hr
      have hlen : (rows.drop c).length ≤ n := by
        simp only [List.length_drop]
        omega
      simp only [splitIntoChunksAux, hr, if_false, List.length_cons, ih _ hlen,
        List.length_drop]
      have hsplit : rows.length + c - 1 = (rows.length - 1) + c := by omega
      rw [hsplit, Nat.add_div_right _ hc]
      by_cases hsmall : rows.length ≤ c
      · have h1 : rows.length - c = 0 := by omega
        rw [h1]
        rw [Nat.div_eq_of_lt (by omega : 0 + c - 1 < c),
          Nat.div_eq_of_lt (by omega : rows.length - 1 < c)]
      · have h2 : rows.length - c + c - 1 = (rows.length - c - 1) + c := by omega
        have h3 : rows.length - 1 = (rows.length - 1 - c) + c := by omega
        rw [h2, Nat.add_div_right _ hc, h3, Nat.add_div_right _ hc]
        have h4 : rows.length - c - 1 = rows.length - 1 - c := by omega
        rw [h4]

theorem splitIntoChunksAux_getD (c : Nat) (hc : 0 < c) :
    ∀ (fuel : Nat) (rows : List Row) (i : Nat), rows.length ≤ fuel →
      (splitIntoChunksAux fuel rows c).getD i [] = (rows.drop (i * c)).take c := by
  intro fuel
  induction fuel with
  | zero =>
    intro rows i h
    have h0 : rows = [] := List.eq_nil_of_length_eq_zero (Nat.le_zero.mp h)
    subst h0
    simp [splitIntoChunksAux]
  | succ n ih =>
    intro rows i h
    by_cases hr : rows = []
    · subst hr
      simp [splitIntoChunksAux]
    · have hpos : 0 < rows.length := List.length_pos.mpr hr
      have hlen : (rows.drop c).length ≤ n := by
        simp only [List.length_drop]
        omega
      simp only [splitIntoChunksAux, hr, if_false]
      cases i with
      | zero => simp
      | succ j =>
        simp only [List.getD_cons_succ, ih _ j hlen, List.drop_drop]
        have harith : c + j * c = (j + 1) * c := by ring
        rw [harith]

/-- C7 as amended.  For every row list and positive chunk size `C` the chunker
produces exactly `⌈N/C⌉` contiguous chunks, chunk `i` covering the half-open
range `[i·C, min((i+1)·C, N))`; when `N = 0` this count is zero — there is no
minimum-one-chunk floor in `splitIntoChunks` (the splitter enforces its own
minimum of one part separately). -/
theorem splitIntoChunks_spec (rows : List Row) (c : Nat) (hc : 0 < c) :
    (splitIntoChunks rows c).length = (rows.length + c - 1) / c
    ∧ ∀ i : Nat, (splitIntoChunks rows c).getD i [] = (rows.drop (i * c)).take c :=
  ⟨splitIntoChunksAux_length c hc rows.length rows (Nat.le_refl _),
   fun i => splitIntoChunksAux_getD c hc rows.length rows i (Nat.le_refl _)⟩

/-- Witness for `splitIntoChunks_spec` on 3 rows with chunk size 2. -/
theorem splitIntoChunks_spec_witness :
    (splitIntoChunks [[Cell.num 1], [Cell.num 2], [Cell.num 3]] 2).length = (3 + 2 - 1) / 2
    ∧ ∀ i : Nat, (splitIntoChunks [[Cell.num 1], [Cell.num 2], [Cell.num 3]] 2).getD i []
        = (([[Cell.num 1], [Cell.num 2], [Cell.num 3]] : List Row).drop (i * 2)).take 2 :=
  splitIntoChunks_spec [[Cell.num 1], [Cell.num 2], [Cell.num 3]] 2 (by decide)

/-- Witness for `chunk_error_policy`: two chunks, the second task fails. -/
theorem chunk_error_policy_witness :
    ∃ e, (([1, 0].filterMap (errAt (fun i _ => if i = 1 then Except.error "boom" else Except.ok [])
            (splitIntoChunks [[Cell.null], [Cell.null]] (effChunkSize 1)))).head? = some e
      ∧ writeParallelWith (fun i _ => if i = 1 then Except.error "boom" else Except.ok [])
          ["h"] [[Cell.null], [Cell.null]] 1 2 [1, 0]
          = ((if (["h"] : List String).length > 0 then encodeRecord ["h"] else ""), some e)) :=
  chunk_error_policy (fun i _ => if i = 1 then Except.error "boom" else Except.ok [])
    ["h"] [[Cell.null], [Cell.null]] 1 2 [1, 0]
    (by decide)
    ⟨1, [[Cell.null]], "boom", by decide, rfl⟩

/-- The fixed `[Content_Types].xml` part (identical in the xlsx builder and
the splitzip xlsx part writer). -/
def contentTypesXML : String :=
  "<?xml version=\"1.0\" encoding=\"UTF-8\" standalone=\"yes\"?>\n<Types xmlns=\"http://schemas.openxmlformats.org/package/2006/content-types\">\n  <Default Extension=\"rels\" ContentType=\"application/vnd.openxmlformats-package.relationships+xml\"/>\n  <Default Extension=\"xml\" ContentType=\"application/xml\"/>\n  <Override PartName=\"/xl/workbook.xml\" ContentType=\"application/vnd.openxmlformats-officedocument.spreadsheetml.sheet.main+xml\"/>\n  <Override PartName=\"/xl/worksheets/sheet1.xml\" ContentType=\"application/vnd.openxmlformats-officedocument.spreadsheetml.worksheet+xml\"/>\n</Types>"

/-- The fixed `_rels/.rels` part. -/
def relsXML : String :=
  "<?xml version=\"1.0\" encoding=\"UTF-8\" standalone=\"yes\"?>\n<Relationships xmlns=\"http://schemas.openxmlformats.org/package/2006/relationships\">\n  <Relationship Id=\"rId1\" Type=\"http://schemas.openxmlformats.org/officeDocument/2006/relationships/officeDocument\" Target=\"xl/workbook.xml\"/>\n</Relationships>"

/-- The fixed `xl/_rels/workbook.xml.rels` part. -/
def workbookRelsXML : String :=
  "<?xml version=\"1.0\" encoding=\"UTF-8\" standalone=\"yes\"?>\n<Relationships xmlns=\"http://schemas.openxmlformats.org/package/2006/relationships\">\n  <Relationship Id=\"rId1\" Type=\"http://schemas.openxmlformats.org/officeDocument/2006/relationships/worksheet\" Target=\"worksheets/sheet1.xml\"/>\n</Relationships>"

/-- The fixed `xl/workbook.xml` part (single sheet named Sheet1). -/
def workbookXML : String :=
  "<?xml version=\"1.0\" encoding=\"UTF-8\" standalone=\"yes\"?>\n<workbook xmlns=\"http://schemas.openxmlformats.org/spreadsheetml/2006/main\" xmlns:r=\"http://schemas.openxmlformats.org/officeDocument/2006/relationships\">\n  <sheets>\n    <sheet name=\"Sheet1\" sheetId=\"1\" r:id=\"rId1\"/>\n  </sheets>\n</workbook>"

/-- `writeSheet` of the splitzip xlsx part writer: header row at row 1 when
`includeHeaders` is set and headers are non-empty, then the part's rows
numbered consecutively (always sync — a part is rendered in one pass). -/
def xlsxSheetContent (headers : List String) (rows : List Row) (includeHeaders : Bool) : String :=
  sheetHeaderXML
  ++ (if includeHeaders ∧ headers.length > 0 then buildRowXML 1 headers else "")
  ++ writeRowsXML (if includeHeaders ∧ headers.length > 0 then 2 else 1) rows
  ++ sheetFooterXML

/-- `writeXLSXStructure`: the five entries of one self-contained xlsx part
(shared by `writeXLSXPartToZip` and `generateXLSXPartData`, whose bodies both
delegate to it). -/
def xlsxPartEntries (headers : List String) (rows : List Row) (includeHeaders : Bool) :
    List (String × String) :=
  [("[Content_Types].xml", contentTypesXML),
   ("_rels/.rels", relsXML),
   ("xl/_rels/workbook.xml.rels", workbookRelsXML),
   ("xl/workbook.xml", workbookXML),
   ("xl/worksheets/sheet1.xml", xlsxSheetContent headers rows includeHeaders)]

/-- The bytes of one encoded split part: CSV text, or a nested zip container
holding the five xlsx entries (the binary zip framing itself is not modelled). -/
inductive PartBytes where
  | csvPart (text : String)
  | xlsxPart (entries : List (String × String))
deriving DecidableEq, Repr

/-- The CSV text of one split part: optional header record (when
`includeHeaders` is set and headers non-empty), then the part's rows
(`writeCSVPartToZip` and `generateCSVPartData` have identical bodies and both
produce exactly this text). -/
def csvPartContent (headers : List String) (rows : List Row) (includeHeaders : Bool) : String :=
  (if includeHeaders ∧ headers.length > 0 then encodeRecord headers else "")
  ++ sjoin (rows.map fun row => encodeRecord (row.map cellText))

/-- `types.FormatCSV`. -/
def FormatCSV : String := "csv"

/-- `types.FormatXLSX`. -/
def FormatXLSX : String := "xlsx"

/-- `types.Mode`: the three execution strategies. -/
inductive Mode where
  | sync
  | parallel
  | globalPool
deriving DecidableEq, Repr

/-- `types.SplitZipConfig`. -/
structure SplitZipConfig where
  split : Bool
  zip : Bool
  mode : Mode
  workers : Int
  chunkSize : Int
  format : String
  includeHeaders : Bool
  outputPath : String

/-- `types.SplitZipResult`. -/
structure SplitZipResult where
  OutputPath : String
  TotalParts : Nat
  TotalRows : Nat
  PartFiles : List String
deriving DecidableEq, Repr

/-- `types.PartResult`: one encoded part keyed by its 0-based index. -/
structure PartResult where
  PartIndex : Nat
  Data : PartBytes
  RowCount : Nat
deriving DecidableEq, Repr

/-- `Splitter.getPartFilename`: part `partIdx` (0-based) is named
`part_<partIdx+1>.<csv|xlsx>`. -/
def getPartFilename (format : String) (partIdx : Nat) : String :=
  "part_" ++ toString (partIdx + 1) ++ "." ++ (if format = FormatXLSX then "xlsx" else "csv")

/-- `Splitter.writePartToZip`: stream one part into the archive; errors on an
unsupported format. -/
def writePartToZip (format : String) (includeHeaders : Bool) (filename : String)
    (headers : List String) (partRows : List Row) : Except String (String × PartBytes) :=
  if format = FormatCSV then
    .ok (filename, .csvPart (csvPartContent headers partRows includeHeaders))
  else if format = FormatXLSX then
    .ok (filename, .xlsxPart (xlsxPartEntries headers partRows includeHeaders))
  else .error ("unsupported format: " ++ format)

/-- `Splitter.generatePartData`: encode one part into an isolated buffer;
errors on an unsupported format. -/
def generatePartData (format : String) (includeHeaders : Bool)
    (headers : List String) (rows : List Row) : Except String PartBytes :=
  if format = FormatCSV then .ok (.csvPart (csvPartContent headers rows includeHeaders))
  else if format = FormatXLSX then .ok (.xlsxPart (xlsxPartEntries headers rows includeHeaders))
  else .error ("unsupported format: " ++ format)

/-- The part loop of `Splitter.executeSync`: for `partIdx` up, slice
`rows[partIdx*chunkSize : min(..+chunkSize, N)]`, write it into the archive,
record its filename; abort on the first error.  Returns the archive entries
and the part filenames, in loop order. -/
def executeSyncLoop (format : String) (includeHeaders : Bool) (headers : List String)
    (rows : List Row) (csize : Nat) :
    Nat → Nat → Except String (List (String × PartBytes) × List String)
  | _, 0 => .ok ([], [])
  | partIdx, rem + 1 =>
    let partRows := (rows.drop (partIdx * csize)).take csize
    let filename := getPartFilename format partIdx
    match writePartToZip format includeHeaders filename headers partRows with
    | .error e => .error ("failed to write part " ++ toString (partIdx + 1) ++ ": " ++ e)
    | .ok entry =>
      match executeSyncLoop format includeHeaders headers rows csize (partIdx + 1) rem with
      | .error e => .error e
      | .ok (entries, files) => .ok (entry :: entries, filename :: files)

/-- `Splitter.executeSync`: parts 0 .. numParts-1, streamed sequentially. -/
def executeSync (format : String) (includeHeaders : Bool) (headers : List String)
    (rows : List Row) (csize numParts : Nat) :
    Except String (List (String × PartBytes) × List String) :=
  executeSyncLoop format includeHeaders headers rows csize 0 numParts

/-- One parallel part task of `Splitter.executeParallel`: encode the slice for
`idx` into a buffer, tagged with its part index and row count. -/
def partTask (format : String) (includeHeaders : Bool) (headers : List String)
    (rows : List Row) (csize : Nat) (idx : Nat) : Except String PartResult :=
  let partRows := (rows.drop (idx * csize)).take csize
  match generatePartData format includeHeaders headers partRows with
  | .error e => .error ("part " ++ toString (idx + 1) ++ ": " ++ e)
  | .ok d => .ok ⟨idx, d, partRows.length⟩

/-- `Splitter.executeParallel`: tasks for all parts are dispatched; outcomes
arrive in the order `arrival`; the first observed error, if any, is returned;
otherwise the collected results are sorted by part index and written into the
archive strictly in ascending part index. -/
def executeParallel (format : String) (includeHeaders : Bool) (workers : Int)
    (headers : List String) (rows : List Row) (csize _numParts : Nat)
    (arrival : List Nat) : Except String (List (String × PartBytes) × List String) :=
  let _w := effWorkers workers
  let outcomes := arrival.map (partTask format includeHeaders headers rows csize)
  let errs := outcomes.filterMap fun o =>
    match o with
    | .error e => some e
    | .ok _ => none
  let results := outcomes.filterMap Except.toOption
  match errs.head? with
  | some e => .error e
  | none =>
    let sorted := results.mergeSort fun a b => Nat.ble a.PartIndex b.PartIndex
    .ok (sorted.map fun r => (getPartFilename format r.PartIndex, r.Data),
         sorted.map fun r => getPartFilename format r.PartIndex)

/-- The part count of `Splitter.Execute`:
`numParts := (N + chunkSize - 1) / chunkSize`, with a floor of 1. -/
def splitNumParts (rows : List Row) (chunkSize : Int) : Nat :=
  let csize := effChunkSize chunkSize
  let n0 := (rows.length + csize - 1) / csize
  if n0 = 0 then 1 else n0

/-- `Splitter.Execute`: requires split and zip both enabled; defaults the
chunk size; computes the part count; runs the sync or parallel strategy
(global_pool parts run on the shared pool but follow the parallel path); and
reports the output path, total part count, total row count and the ordered
part filenames.  The archive entries written are returned alongside the
result. -/
def splitterExecute (cfg : SplitZipConfig) (headers : List String) (rows : List Row)
    (arrival : List Nat) : Except String (SplitZipResult × List (String × PartBytes)) :=
  if cfg.split && cfg.zip then
    let csize := effChunkSize cfg.chunkSize
    let totalRows := rows.length
    let numParts := splitNumParts rows cfg.chunkSize
    let r :=
      match cfg.mode with
      | .sync => executeSync cfg.format cfg.includeHeaders headers rows csize numParts
      | .parallel =>
        executeParallel cfg.format cfg.includeHeaders cfg.workers headers rows csize numParts arrival
      | .globalPool =>
        executeParallel cfg.format cfg.includeHeaders cfg.workers headers rows csize numParts arrival
    match r with
    | .error e => .error e
    | .ok (entries, partFiles) =>
      .ok (⟨cfg.outputPath, numParts, totalRows, partFiles⟩, entries)
  else .error "split and zip must both be enabled"

/-- The archive entry produced for part `i` (on a supported format):
`writePartToZip`'s and `generatePartData`'s success value for the slice
`rows[i*csize : min((i+1)*csize, N)]`. -/
def partEntryFor (format : String) (includeHeaders : Bool) (headers : List String)
    (rows : List Row) (csize : Nat) (i : Nat) : String × PartBytes :=
  (getPartFilename format i,
   if format = FormatCSV then
     PartBytes.csvPart (csvPartContent headers ((rows.drop (i * csize)).take csize) includeHeaders)
   else
     PartBytes.xlsxPart (xlsxPartEntries headers ((rows.drop (i * csize)).take csize) includeHeaders))

theorem writePartToZip_supported (format : String)
    (hfmt : format = FormatCSV ∨ format = FormatXLSX) (includeHeaders : Bool)
    (headers : List String) (rows : List Row) (csize i : Nat) :
    writePartToZip format includeHeaders (getPartFilename format i) headers
        ((rows.drop (i * csize)).take csize)
      = Except.ok (partEntryFor format includeHeaders headers rows csize i) := by
  rcases hfmt with h | h
  · subst h
    simp [writePartToZip, partEntryFor]
  · subst h
    simp [writePartToZip, partEntryFor, FormatXLSX, FormatCSV]

theorem generatePartData_supported (format : String)
    (hfmt : format = FormatCSV ∨ format = FormatXLSX) (includeHeaders : Bool)
    (headers : List String) (partRows : List Row) :
    generatePartData format includeHeaders headers partRows
      = Except.ok (if format = FormatCSV then
          PartBytes.csvPart (csvPartContent headers partRows includeHeaders)
        else PartBytes.xlsxPart (xlsxPartEntries headers partRows includeHeaders)) := by
  rcases hfmt with h | h
  · subst h
    simp [generatePartData]
  · subst h
    simp [generatePartData, FormatXLSX, FormatCSV]

/-- On a supported format the sync part loop succeeds and produces, in loop
order, the entries and filenames of parts `partIdx, partIdx+1, ...`. -/
theorem executeSyncLoop_ok (format : String)
    (hfmt : format = FormatCSV ∨ format = FormatXLSX) (includeHeaders : Bool)
    (headers : List String) (rows : List Row) (csize : Nat) :
    ∀ (rem partIdx : Nat),
      executeSyncLoop format includeHeaders headers rows csize partIdx rem
        = Except.ok
            ((List.range rem).map fun j =>
               partEntryFor format includeHeaders headers rows csize (partIdx + j),
             (List.range rem).map fun j => getPartFilename format (partIdx + j)) := by
  intro rem
  induction rem with
  | zero => intro partIdx; rfl
  | succ n ih =>
    intro partIdx
    rw [executeSyncLoop]
    rw [writePartToZip_supported format hfmt includeHeaders headers rows csize partIdx]
    rw [ih (partIdx + 1)]
    simp only [List.range_succ_eq_map, List.map_cons, List.map_map, Nat.add_zero]
    congr 2
    · congr 1
      apply List.map_congr_left
      intro j _
      simp only [Function.comp_apply]
      congr 1
      omega
    · congr 1
      apply List.map_congr_left
      intro j _
      simp only [Function.comp_apply]
      congr 1
      omega

/-- On a supported format each parallel part task succeeds with the part
entry's data, keyed by its own index. -/
theorem partTask_ok (format : String)
    (hfmt : format = FormatCSV ∨ format = FormatXLSX) (includeHeaders : Bool)
    (headers : List String) (rows : List Row) (csize i : Nat) :
    partTask format includeHeaders headers rows csize i
      = Except.ok ⟨i, (partEntryFor format includeHeaders headers rows csize i).2,
          ((rows.drop (i * csize)).take csize).length⟩ := by
  simp only [partTask, generatePartData_supported format hfmt]
  simp [partEntryFor]

/-- A pairwise-sorted permutation of `(range n).map f`, where `f` keys each
element by its own index, is `(range n).map f` itself. -/
theorem sorted_perm_range_map (f : Nat → PartResult) (hkey : ∀ i, (f i).PartIndex = i)
    (n : Nat) (l : List PartResult) (hp : l.Perm ((List.range n).map f))
    (hsort : l.Pairwise fun a b => Nat.ble a.PartIndex b.PartIndex = true) :
    l = (List.range n).map f := by
  have hmapidx : (l.map PartResult.PartIndex).Perm (List.range n) := by
    have h1 := hp.map PartResult.PartIndex
    rw [List.map_map] at h1
    have h2 : (List.range n).map (PartResult.PartIndex ∘ f) = List.range n := by
      rw [show PartResult.PartIndex ∘ f = id from funext hkey, List.map_id]
    rwa [h2] at h1
  have hsorted_idx : (l.map PartResult.PartIndex).Pairwise (· ≤ ·) := by
    rw [List.pairwise_map]
    exact hsort.imp fun h => Nat.le_of_ble_eq_true h
  have hrange_sorted : (List.range n).Pairwise ((· ≤ ·) : Nat → Nat → Prop) :=
    (List.pairwise_lt_range n).imp Nat.le_of_lt
  have heq : l.map PartResult.PartIndex = List.range n :=
    List.eq_of_perm_of_sorted hmapidx hsorted_idx hrange_sorted
  have hmem : ∀ x ∈ l, x = f x.PartIndex := by
    intro x hx
    have hx2 : x ∈ (List.range n).map f := hp.subset hx
    obtain ⟨j, _, hfx⟩ := List.mem_map.mp hx2
    rw [← hfx, hkey j]
  calc l = l.map (fun x => f x.PartIndex) := by
        conv_lhs => rw [← List.map_id l]
        apply List.map_congr_left
        intro x hx
        exact hmem x hx
    _ = (l.map PartResult.PartIndex).map f := by rw [List.map_map]; rfl
    _ = (List.range n).map f := by rw [heq]

/-- On a supported format, and for any arrival permutation of the part tasks,
the parallel strategy succeeds and writes exactly the parts `0 .. n-1` in
ascending index order — the same entries and filenames as the sync loop. -/
theorem executeParallel_ok (format : String)
    (hfmt : format = FormatCSV ∨ format = FormatXLSX) (includeHeaders : Bool)
    (workers : Int) (headers : List String) (rows : List Row) (csize n : Nat)
    (arrival : List Nat) (hperm : arrival.Perm (List.range n)) :
    executeParallel format includeHeaders workers headers rows csize n arrival
      = Except.ok
          ((List.range n).map fun j =>
             partEntryFor format includeHeaders headers rows csize j,
           (List.range n).map fun j => getPartFilename format j) := by
  simp only [executeParallel]
  have htask : partTask format includeHeaders headers rows csize
      = fun i => Except.ok ⟨i, (partEntryFor format includeHeaders headers rows csize i).2,
          ((rows.drop (i * csize)).take csize).length⟩ :=
    funext fun i => partTask_ok format hfmt includeHeaders headers rows csize i
  rw [htask]
  set f : Nat → PartResult := fun i =>
    ⟨i, (partEntryFor format includeHeaders headers rows csize i).2,
      ((rows.drop (i * csize)).take csize).length⟩ with hf
  have herrs : (arrival.map fun i => Except.ok (f i)).filterMap
      (fun o : Except String PartResult =>
        match o with
        | .error e => some e
        | .ok _ => none) = [] := by
    rw [List.filterMap_eq_nil_iff]
    intro a ha
    obtain ⟨i, _, hi⟩ := List.mem_map.mp ha
    rw [← hi]
  rw [herrs]
  simp only [List.head?_nil]
  have hresults : (arrival.map fun i => (Except.ok (f i) : Except String PartResult)).filterMap
      Except.toOption = arrival.map f := by
    rw [List.filterMap_map]
    have : (Except.toOption ∘ fun i => (Except.ok (f i) : Except String PartResult))
        = some ∘ f := rfl
    rw [this, List.filterMap_eq_map]
  rw [hresults]
  have hsorted : (arrival.map f).mergeSort (fun a b => Nat.ble a.PartIndex b.PartIndex)
      = (List.range n).map f := by
    apply sorted_perm_range_map f (fun i => rfl) n
    · exact (List.mergeSort_perm (arrival.map f) _).trans (hperm.map f)
    · have htrans : ∀ a b c : PartResult,
          Nat.ble a.PartIndex b.PartIndex = true → Nat.ble b.PartIndex c.PartIndex = true →
          Nat.ble a.PartIndex c.PartIndex = true := by
        intro a b c hab hbc
        rw [Nat.ble_eq] at hab hbc ⊢
        omega
      have htotal : ∀ a b : PartResult,
          (Nat.ble a.PartIndex b.PartIndex || Nat.ble b.PartIndex a.PartIndex) = true := by
        intro a b
        rw [Bool.or_eq_true, Nat.ble_eq, Nat.ble_eq]
        omega
      exact List.sorted_mergeSort htrans htotal (arrival.map f)
  rw [hsorted]
  rw [List.map_map, List.map_map]
  rfl

/-- The part slices' row counts sum to the total row count whenever the part
count covers all rows. -/
theorem sum_slices (c : Nat) (hc : 0 < c) :
    ∀ (k : Nat) (rows : List Row), rows.length ≤ k * c →
      ((List.range k).map fun i => ((rows.drop (i * c)).take c).length).sum = rows.length := by
  intro k
  induction k with
  | zero =>
    intro rows h
    simp only [Nat.zero_mul, Nat.le_zero] at h
    simp [h]
  | succ k ih =>
    intro rows h
    rw [Nat.succ_mul] at h
    have hlen : (rows.drop c).length ≤ k * c := by
      simp only [List.length_drop]
      omega
    have hih := ih (rows.drop c) hlen
    rw [List.range_succ_eq_map, List.map_cons, List.map_map, List.sum_cons]
    have hshift : List.map ((fun i => ((rows.drop (i * c)).take c).length) ∘ Nat.succ)
          (List.range k)
        = List.map (fun i => (((rows.drop c).drop (i * c)).take c).length) (List.range k) := by
      apply List.map_congr_left
      intro i _
      simp only [Function.comp_apply, List.length_take, List.length_drop, Nat.succ_mul]
      omega
    rw [hshift, hih]
    simp only [Nat.zero_mul, List.drop_zero, List.length_take, List.length_drop]
    omega

/-- The part count of `Splitter.Execute` covers all rows. -/
theorem le_numParts_mul (N c : Nat) (hc : 0 < c) :
    N ≤ (if (N + c - 1) / c = 0 then 1 else (N + c - 1) / c) * c := by
  by_cases hN : N = 0
  · subst hN
    exact Nat.zero_le _
  · have hq : (N + c - 1) / c = (N - 1) / c + 1 := by
      have harith : N + c - 1 = (N - 1) + c := by omega
      rw [harith, Nat.add_div_right _ hc]
    have hlt : (N - 1) / c < (N + c - 1) / c := by
      rw [hq]
      exact Nat.lt_succ_self _
    have hmul : N - 1 < ((N + c - 1) / c) * c := (Nat.div_lt_iff_lt_mul hc).mp hlt
    have h0 : ¬((N + c - 1) / c = 0) := by
      rw [hq]
      exact Nat.succ_ne_zero _
    simp only [h0, if_false]
    calc N = N - 1 + 1 := by omega
      _ ≤ ((N + c - 1) / c) * c := Nat.succ_le_of_lt hmul

/-- C3.  For every row count `N` and chunk size, the split+zip partitioner:
produces exactly `⌈N/C⌉` parts for `N > 0` and exactly 1 part for `N = 0`
(`C` the effective chunk size); slices parts so that their row counts sum to
`N`; names part `i` (0-based) `part_<i+1>.<csv|xlsx>` and writes the archive
entries in ascending part index in sync, parallel and global_pool modes alike
(for any completion order of the parallel part tasks); and returns the output
path, the total part count, the total row count and the ordered part
filenames. -/
theorem splitzip_parts (cfg : SplitZipConfig) (headers : List String) (rows : List Row)
    (arrival : List Nat)
    (hs : cfg.split = true) (hz : cfg.zip = true)
    (hfmt : cfg.format = FormatCSV ∨ cfg.format = FormatXLSX)
    (hperm : arrival.Perm (List.range (splitNumParts rows cfg.chunkSize))) :
    (splitterExecute { cfg with mode := Mode.sync } headers rows arrival
        = Except.ok
            (⟨cfg.outputPath, splitNumParts rows cfg.chunkSize, rows.length,
              (List.range (splitNumParts rows cfg.chunkSize)).map fun i =>
                getPartFilename cfg.format i⟩,
             (List.range (splitNumParts rows cfg.chunkSize)).map fun i =>
               partEntryFor cfg.format cfg.includeHeaders headers rows
                 (effChunkSize cfg.chunkSize) i))
    ∧ splitterExecute { cfg with mode := Mode.parallel } headers rows arrival
        = splitterExecute { cfg with mode := Mode.sync } headers rows arrival
    ∧ splitterExecute { cfg with mode := Mode.globalPool } headers rows arrival
        = splitterExecute { cfg with mode := Mode.sync } headers rows arrival
    ∧ ((List.range (splitNumParts rows cfg.chunkSize)).map fun i =>
          partEntryFor cfg.format cfg.includeHeaders headers rows
            (effChunkSize cfg.chunkSize) i).map Prod.fst
        = (List.range (splitNumParts rows cfg.chunkSize)).map
            (fun i => getPartFilename cfg.format i)
    ∧ (0 < rows.length → splitNumParts rows cfg.chunkSize
        = (rows.length + effChunkSize cfg.chunkSize - 1) / effChunkSize cfg.chunkSize)
    ∧ (rows.length = 0 → splitNumParts rows cfg.chunkSize = 1)
    ∧ ((List.range (splitNumParts rows cfg.chunkSize)).map fun i =>
          ((rows.drop (i * effChunkSize cfg.chunkSize)).take
            (effChunkSize cfg.chunkSize)).length).sum = rows.length
    ∧ ∀ i : Nat, getPartFilename cfg.format i
        = "part_" ++ toString (i + 1) ++ "."
          ++ (if cfg.format = FormatXLSX then "xlsx" else "csv") := by
  have hc := effChunkSize_pos cfg.chunkSize
  have hsync : splitterExecute { cfg with mode := Mode.sync } headers rows arrival
      = Except.ok
          (⟨cfg.outputPath, splitNumParts rows cfg.chunkSize, rows.length,
            (List.range (splitNumParts rows cfg.chunkSize)).map fun i =>
              getPartFilename cfg.format i⟩,
           (List.range (splitNumParts rows cfg.chunkSize)).map fun i =>
             partEntryFor cfg.format cfg.includeHeaders headers rows
               (effChunkSize cfg.chunkSize) i) := by
    simp only [splitterExecute, hs, hz, Bool.and_self, if_true, executeSync,
      executeSyncLoop_ok cfg.format hfmt cfg.includeHeaders headers rows
        (effChunkSize cfg.chunkSize) (splitNumParts rows cfg.chunkSize) 0,
      Nat.zero_add]
  have hpareq : executeParallel cfg.format cfg.includeHeaders cfg.workers headers rows
      (effChunkSize cfg.chunkSize) (splitNumParts rows cfg.chunkSize) arrival
      = Except.ok
          ((List.range (splitNumParts rows cfg.chunkSize)).map fun j =>
             partEntryFor cfg.format cfg.includeHeaders headers rows
               (effChunkSize cfg.chunkSize) j,
           (List.range (splitNumParts rows cfg.chunkSize)).map fun j =>
             getPartFilename cfg.format j) :=
    executeParallel_ok cfg.format hfmt cfg.includeHeaders cfg.workers headers rows
      (effChunkSize cfg.chunkSize) (splitNumParts rows cfg.chunkSize) arrival hperm
  have hpar : splitterExecute { cfg with mode := Mode.parallel } headers rows arrival
      = splitterExecute { cfg with mode := Mode.sync } headers rows arrival := by
    rw [hsync]
    simp only [splitterExecute, hs, hz, Bool.and_self, if_true, hpareq]
  have hglobal : splitterExecute { cfg with mode := Mode.globalPool } headers rows arrival
      = splitterExecute { cfg with mode := Mode.sync } headers rows arrival := by
    rw [hsync]
    simp only [splitterExecute, hs, hz, Bool.and_self, if_true, hpareq]
  refine ⟨hsync, hpar, hglobal, ?_, ?_, ?_, ?_, fun i => rfl⟩
  · rw [List.map_map]
    rfl
  · intro hpos
    unfold splitNumParts
    have hq : (rows.length + effChunkSize cfg.chunkSize - 1) / effChunkSize cfg.chunkSize
        = (rows.length - 1) / effChunkSize cfg.chunkSize + 1 := by
      have harith : rows.length + effChunkSize cfg.chunkSize - 1
          = (rows.length - 1) + effChunkSize cfg.chunkSize := by omega
      rw [harith, Nat.add_div_right _ hc]
    simp only [hq]
    simp
  · intro hzero
    unfold splitNumParts
    simp only [hzero]
    rw [Nat.div_eq_of_lt (by omega : 0 + effChunkSize cfg.chunkSize - 1
      < effChunkSize cfg.chunkSize)]
    simp
  · apply sum_slices (effChunkSize cfg.chunkSize) hc
    have := le_numParts_mul rows.length (effChunkSize cfg.chunkSize) hc
    unfold splitNumParts
    exact this

/-- Witness for `splitzip_parts`: 3 rows, chunk size 2, csv format, arrival
order `[1, 0]` — the sync strategy's reported result and archive entries. -/
theorem splitzip_parts_witness :
    splitterExecute
        { split := true, zip := true, mode := Mode.sync, workers := 2, chunkSize := 2,
          format := FormatCSV, includeHeaders := true, outputPath := "out.zip" }
        ["h"] [[Cell.null], [Cell.null], [Cell.null]] [1, 0]
      = Except.ok
          (⟨"out.zip", splitNumParts [[Cell.null], [Cell.null], [Cell.null]] 2, 3,
            (List.range (splitNumParts [[Cell.null], [Cell.null], [Cell.null]] 2)).map fun i =>
              getPartFilename FormatCSV i⟩,
           (List.range (splitNumParts [[Cell.null], [Cell.null], [Cell.null]] 2)).map fun i =>
             partEntryFor FormatCSV true ["h"] [[Cell.null], [Cell.null], [Cell.null]]
               (effChunkSize 2) i) :=
  (splitzip_parts ⟨true, true, Mode.sync, 2, 2, FormatCSV, true, "out.zip"⟩ ["h"]
    [[Cell.null], [Cell.null], [Cell.null]] [1, 0] rfl rfl (Or.inl rfl) (by decide)).1

/-- A Go channel of jobs with a bounded buffer: `closed` is the channel's
closed flag; `close` on an already-closed channel panics (modelled as `none`),
as does a send on a closed channel. -/
structure JobQueue (Job : Type) where
  buffer : List Job
  capacity : Nat
  closed : Bool

/-- `close(ch)`: panics (returns `none`) if the channel is already closed. -/
def closeChan {Job : Type} (q : JobQueue Job) : Option (JobQueue Job) :=
  if q.closed then none else some { q with closed := true }

/-- A send `ch <- job`: panics (returns `none`) if the channel is closed,
otherwise enqueues. -/
def sendChan {Job : Type} (q : JobQueue Job) (j : Job) : Option (JobQueue Job) :=
  if q.closed then none else some { q with buffer := q.buffer ++ [j] }

/-- `worker.Pool` (pool.go): worker count, bounded job queue, a `sync.Once`
for `Start` (`started`), the number of spawned worker goroutines, and the
`stopped` flag guarded by the pool's mutex.  The pool's operations are
serialized by that mutex, so each is modelled as one atomic state
transition. -/
structure Pool (Job : Type) where
  workers : Nat
  jobQueue : JobQueue Job
  started : Bool
  spawned : Nat
  stopped : Bool

/-- `NewPool(workers, queueSize)`: non-positive workers default to 1,
non-positive queue size to 100. -/
def NewPool (Job : Type) (workers queueSize : Int) : Pool Job :=
  let w := if workers ≤ 0 then (1 : Int) else workers
  let qs := if queueSize ≤ 0 then (100 : Int) else queueSize
  { workers := w.toNat
    jobQueue := { buffer := [], capacity := qs.toNat, closed := false }
    started := false
    spawned := 0
    stopped := false }

/-- `Pool.Start`: `once.Do` spawns the workers only if they have not been
spawned before. -/
def Pool.start {Job : Type} (p : Pool Job) : Pool Job :=
  if p.started then p else { p with started := true, spawned := p.workers }

/-- `Pool.Submit`: under the mutex, a no-op when stopped; otherwise a send on
the job queue (which would panic — `none` — were the queue closed while not
stopped, a state the pool never reaches). -/
def Pool.submit {Job : Type} (p : Pool Job) (j : Job) : Option (Pool Job) :=
  if p.stopped then some p
  else (sendChan p.jobQueue j).map fun q => { p with jobQueue := q }

/-- `Pool.Shutdown`: under the mutex, a no-op when already stopped; otherwise
sets `stopped` and closes the queue (which would panic — `none` — were it
already closed). -/
def Pool.shutdown {Job : Type} (p : Pool Job) : Option (Pool Job) :=
  if p.stopped then some p
  else (closeChan p.jobQueue).map fun q => { p with stopped := true, jobQueue := q }

/-- A worker dequeues one job (consumption only changes the buffer). -/
def Pool.takeJob {Job : Type} (p : Pool Job) : Pool Job :=
  { p with jobQueue := { p.jobQueue with buffer := p.jobQueue.buffer.tail } }

/-- One observable transition of the pool: a `Start`, a successful `Submit`
or `Shutdown`, or a worker dequeue. -/
inductive PoolStep (Job : Type) : Pool Job → Pool Job → Prop where
  | start (p : Pool Job) : PoolStep Job p p.start
  | submit (p p' : Pool Job) (j : Job) : p.submit j = some p' → PoolStep Job p p'
  | shutdown (p p' : Pool Job) : p.shutdown = some p' → PoolStep Job p p'
  | work (p : Pool Job) : PoolStep Job p p.takeJob

/-- The pool states reachable from `NewPool` by any sequence of operations. -/
inductive PoolReachable (Job : Type) (workers queueSize : Int) : Pool Job → Prop where
  | init : PoolReachable Job workers queueSize (NewPool Job workers queueSize)
  | step {p p' : Pool Job} : PoolReachable Job workers queueSize p → PoolStep Job p p' →
      PoolReachable Job workers queueSize p'

/-- Invariant: the queue is closed exactly when the pool is stopped (the two
are updated together under the mutex in `Shutdown`). -/
theorem pool_closed_iff_stopped {Job : Type} (workers queueSize : Int) (p : Pool Job)
    (hr : PoolReachable Job workers queueSize p) : p.jobQueue.closed = p.stopped := by
  induction hr with
  | init => rfl
  | @step q q' hr hstep ih =>
    cases hstep with
    | start =>
      by_cases h : q.started
      · simpa [Pool.start, h] using ih
      · simpa [Pool.start, h] using ih
    | submit p2 j hs =>
      cases hq : q.stopped with
      | true =>
        simp [Pool.submit, hq] at hs
        rw [← hs]
        exact ih
      | false =>
        have hcl : q.jobQueue.closed = false := by rw [ih, hq]
        simp [Pool.submit, sendChan, hq, hcl] at hs
        rw [← hs]
    | shutdown p2 hs =>
      cases hq : q.stopped with
      | true =>
        simp [Pool.shutdown, hq] at hs
        rw [← hs]
        exact ih
      | false =>
        have hcl : q.jobQueue.closed = false := by rw [ih, hq]
        simp [Pool.shutdown, closeChan, hq, hcl] at hs
        rw [← hs]
    | work =>
      simpa [Pool.takeJob] using ih

/-- C8.  The worker pool lifecycle is idempotent and shutdown-safe, from any
reachable pool state: a second `Start` is a no-op (workers are spawned only
once, by the `sync.Once`); `Shutdown` never panics (`some`, never `none` —
the double-close branch is unreachable because `stopped` already guards the
queue's closed flag), a second `Shutdown` is a no-op on the resulting state,
and a `Submit` after `Shutdown` is a no-op that never attempts a send on the
closed queue. -/
theorem pool_lifecycle {Job : Type} (workers queueSize : Int) (p : Pool Job)
    (hr : PoolReachable Job workers queueSize p) :
    p.start.start = p.start
    ∧ ∃ p' : Pool Job, p.shutdown = some p'
        ∧ p'.shutdown = some p'
        ∧ ∀ j : Job, p'.submit j = some p' := by
  have hinv := pool_closed_iff_stopped workers queueSize p hr
  constructor
  · by_cases h : p.started
    · simp [Pool.start, h]
    · simp [Pool.start, h]
  · by_cases h : p.stopped
    · refine ⟨p, ?_, ?_, ?_⟩
      · simp [Pool.shutdown, h]
      · simp [Pool.shutdown, h]
      · intro j
        simp [Pool.submit, h]
    · have hcl : p.jobQueue.closed = false := by
        rw [hinv]
        simpa using h
      have hshut : p.shutdown
          = some { p with stopped := true, jobQueue := { p.jobQueue with closed := true } } := by
        simp [Pool.shutdown, closeChan, h, hcl]
      refine ⟨_, hshut, ?_, ?_⟩
      · simp [Pool.shutdown]
      · intro j
        simp [Pool.submit]

/-- Witness for `pool_lifecycle` at a freshly constructed pool. -/
theorem pool_lifecycle_witness :
    (NewPool Nat 4 100).start.start = (NewPool Nat 4 100).start
    ∧ ∃ p' : Pool Nat, (NewPool Nat 4 100).shutdown = some p'
        ∧ p'.shutdown = some p'
        ∧ ∀ j : Nat, p'.submit j = some p' :=
  pool_lifecycle 4 100 (NewPool Nat 4 100) (PoolReachable.init)

/-- C9.  A non-positive `workers` is silently replaced by the default 4 and a
non-positive `chunkSize` by the default 10000, before any encoding work, in
the parallel CSV encoder, the spreadsheet builder and the split+zip
partitioner alike: each produces exactly the output it would produce with the
defaults spelled out, and the substitution itself never produces an error
(the parallel CSV encoder returns no error at all). -/
theorem config_defaults (headers : List String) (rows : List Row) (c w : Int)
    (hc : c ≤ 0) (hw : w ≤ 0) (arrival : List Nat) (cfg : SplitZipConfig) :
    effChunkSize c = 10000 ∧ effWorkers w = 4
    ∧ writeParallel headers rows c w arrival = writeParallel headers rows 10000 4 arrival
    ∧ (writeParallel headers rows c w arrival).2 = none
    ∧ writeSheetParallel headers rows c w = writeSheetParallel headers rows 10000 4
    ∧ splitterExecute { cfg with chunkSize := c, workers := w } headers rows arrival
        = splitterExecute { cfg with chunkSize := 10000, workers := 4 } headers rows arrival := by
  have h1 : effChunkSize c = 10000 := by
    unfold effChunkSize
    rw [if_pos hc]
    rfl
  have h1d : effChunkSize 10000 = 10000 := by decide
  have h2 : effWorkers w = 4 := by
    unfold effWorkers
    rw [if_pos hw]
    rfl
  have h2d : effWorkers 4 = 4 := by decide
  refine ⟨h1, h2, ?_, ?_, ?_, ?_⟩
  · simp only [writeParallel, writeParallelWith, h1, h1d, h2, h2d]
  · rw [writeParallel_eq_writeSync]
  · simp only [writeSheetParallel, h1, h1d, h2, h2d]
  · have hpar_congr : ∀ (fmt : String) (inc : Bool) (csz np : Nat),
        executeParallel fmt inc w headers rows csz np arrival
          = executeParallel fmt inc 4 headers rows csz np arrival := by
      intro fmt inc csz np
      simp only [executeParallel, h2, h2d]
    simp only [splitterExecute, splitNumParts, h1, h1d, hpar_congr]

/-- Witness for `config_defaults` at `chunkSize = 0`, `workers = -1`. -/
theorem config_defaults_witness :
    effChunkSize 0 = 10000 ∧ effWorkers (-1) = 4
    ∧ writeParallel ["h"] [[Cell.null]] 0 (-1) [0]
        = writeParallel ["h"] [[Cell.null]] 10000 4 [0]
    ∧ (writeParallel ["h"] [[Cell.null]] 0 (-1) [0]).2 = none
    ∧ writeSheetParallel ["h"] [[Cell.null]] 0 (-1)
        = writeSheetParallel ["h"] [[Cell.null]] 10000 4
    ∧ splitterExecute
        { (⟨true, true, Mode.sync, 1, 1, FormatCSV, true, "o"⟩ : SplitZipConfig) with
          chunkSize := 0, workers := -1 } ["h"] [[Cell.null]] [0]
        = splitterExecute
            { (⟨true, true, Mode.sync, 1, 1, FormatCSV, true, "o"⟩ : SplitZipConfig) with
              chunkSize := 10000, workers := 4 } ["h"] [[Cell.null]] [0] :=
  config_defaults ["h"] [[Cell.null]] 0 (-1) (by decide) (by decide) [0]
    ⟨true, true, Mode.sync, 1, 1, FormatCSV, true, "o"⟩

set_option maxRecDepth 8000 in
/-- C10.  A null cell's canonical text is the literal `<nil>` (Go's `%v`
rendering of a nil interface value) on every encoder path: the sync CSV
writer, the parallel CSV writer's chunk records, the spreadsheet builder's
cell conversion (whose XML then escapes it to `&lt;nil&gt;` inside the inline
string), and the split+zip CSV part content — never an empty field. -/
theorem null_renders_nil :
    cellText Cell.null = "<nil>"
    ∧ writeSync [] [[Cell.null]] = "<nil>\n"
    ∧ writeParallel [] [[Cell.null]] 1 1 [0] = ("<nil>\n", none)
    ∧ (processChunk 0 [[Cell.null]]).1.Records = [["<nil>"]]
    ∧ csvPartContent [] [[Cell.null]] true = "<nil>\n"
    ∧ ([Cell.null] : Row).map cellText = ["<nil>"]
    ∧ writeSheetSync [] [[Cell.null]]
        = sheetHeaderXML ++ buildRowXML 1 ["<nil>"] ++ sheetFooterXML
    ∧ xlsxSheetContent [] [[Cell.null]] true
        = sheetHeaderXML ++ buildRowXML 1 ["<nil>"] ++ sheetFooterXML := by
  refine ⟨rfl, by decide, by decide, rfl, by decide, rfl, by decide, by decide⟩

end TurboExport
